import Mathlib

/-!
Verification of the org2html markup engine (lexer, metadata extractor,
block/inline parser, HTML renderer) against its natural-language
specification.  The TypeScript sources are shallowly embedded as
executable Lean definitions: strings are processed as `List Char`,
JavaScript regular expressions are translated into explicit character
scans, and the scanning loops of the parser carry an explicit fuel
argument (always instantiated with the input length, which is shown to
be sufficient) so that every definition computes by kernel reduction.
-/

namespace Org2Html

/-! ## Character and string utilities (models of the JS primitives used) -/

/-- Model of the JS whitespace class for the inputs considered here
(space, tab, CR, LF); used for the regex class of whitespace characters, for
String.prototype.trim and for trimStart. -/
def isSpaceCh (c : Char) : Bool :=
  c == ' ' || c == '\t' || c == '\n' || c == '\r'

/-- The regex word-character class: [A-Za-z0-9_]. -/
def isWordChar (c : Char) : Bool :=
  c.isAlpha || c.isDigit || c == '_'

/-- ASCII lower-casing, modelling String.prototype.toLowerCase on the
ASCII inputs this code handles. -/
def asciiLower (c : Char) : Char :=
  if c.isUpper then Char.ofNat (c.toNat + 32) else c

/-- ASCII upper-casing, modelling String.prototype.toUpperCase. -/
def asciiUpper (c : Char) : Char :=
  if c.isLower then Char.ofNat (c.toNat - 32) else c

/-- Drop trailing characters satisfying p. -/
def dropEnd (p : Char → Bool) (cs : List Char) : List Char :=
  (cs.reverse.dropWhile p).reverse

/-- Model of String.prototype.trim. -/
def jsTrim (cs : List Char) : List Char :=
  dropEnd isSpaceCh (cs.dropWhile isSpaceCh)

/-- Split on a single character, preserving empty fields, as
String.prototype.split with a one-character string separator. -/
def splitCh (sep : Char) : List Char → List (List Char)
  | [] => [[]]
  | c :: rest =>
    let r := splitCh sep rest
    if c == sep then [] :: r
    else
      match r with
      | h :: t => (c :: h) :: t
      | [] => [[c]]

/-- Model of Array.prototype.join with a separator. -/
def joinStrs (sep : String) : List String → String
  | [] => ""
  | [x] => x
  | x :: xs => x ++ sep ++ joinStrs sep xs

/-- Does the second list start with the first one? -/
def matchPre : List Char → List Char → Bool
  | [], _ => true
  | _ :: _, [] => false
  | p :: ps, c :: cs => p == c && matchPre ps cs

/-- Case-insensitive (ASCII) variant of matchPre, for regexes with the i flag. -/
def matchPreCI : List Char → List Char → Bool
  | [], _ => true
  | _ :: _, [] => false
  | p :: ps, c :: cs => asciiUpper p == asciiUpper c && matchPreCI ps cs

/-- Does needle occur as a contiguous sublist of hay? -/
def containsSub (needle : List Char) : List Char → Bool
  | [] => matchPre needle []
  | c :: rest => matchPre needle (c :: rest) || containsSub needle rest

/-- Does the list end with the given suffix? -/
def endsL (suf cs : List Char) : Bool :=
  matchPre suf.reverse cs.reverse

/-- Index of the first occurrence of a character, as String.prototype.indexOf. -/
def findCh (c : Char) : List Char → Option Nat
  | [] => none
  | x :: xs => if x == c then some 0 else (findCh c xs).map (· + 1)

/-- Index of the first occurrence of a two-character sequence, as
String.prototype.indexOf with a two-character needle. -/
def findSub2 (a b : Char) : List Char → Option Nat
  | x :: y :: rest =>
    if x == a && y == b then some 0 else (findSub2 a b (y :: rest)).map (· + 1)
  | _ => none

/-- Index of the first occurrence of a three-character sequence. -/
def findSub3 (a b c : Char) : List Char → Option Nat
  | x :: y :: z :: rest =>
    if x == a && y == b && z == c then some 0
    else (findSub3 a b c (y :: z :: rest)).map (· + 1)
  | _ => none

/-- Model of value.split('][') (used for link constructs): split on the
two-character separator, leftmost-first, non-overlapping. -/
def splitSepBrk : List Char → List (List Char)
  | [] => [[]]
  | ']' :: '[' :: rest => [] :: splitSepBrk rest
  | c :: rest =>
    match splitSepBrk rest with
    | h :: t => (c :: h) :: t
    | [] => [[c]]

/-- Model of String.prototype.split(/\s+/): maximal whitespace runs are
separators; a leading or trailing run contributes an empty field, and the
empty string yields one empty field. -/
def splitWsJs : List Char → List (List Char)
  | [] => [[]]
  | c :: rest =>
    let r := splitWsJs rest
    if isSpaceCh c then
      match rest.head? with
      | some c2 => if isSpaceCh c2 then r else [] :: r
      | none => [] :: r
    else
      match r with
      | h :: t => (c :: h) :: t
      | [] => [[c]]

/-- Replace every maximal whitespace run by the single character r
(flag: currently inside a run). -/
def wsRunsToGo (r : Char) : Bool → List Char → List Char
  | _, [] => []
  | inRun, c :: rest =>
    if isSpaceCh c then
      if inRun then wsRunsToGo r true rest else r :: wsRunsToGo r true rest
    else c :: wsRunsToGo r false rest

/-- Collapse every run of the character d to a single occurrence. -/
def collapseRunsGo (d : Char) : Bool → List Char → List Char
  | _, [] => []
  | inRun, c :: rest =>
    if c == d then
      if inRun then collapseRunsGo d true rest else d :: collapseRunsGo d true rest
    else c :: collapseRunsGo d false rest

/-- Value of a list of decimal digits. -/
def digitsVal (ds : List Char) : Nat :=
  ds.foldl (fun a c => a * 10 + (c.toNat - '0'.toNat)) 0

/-- Model of Number.parseInt(s, 10): trim, optional sign, longest digit
prefix; none models NaN (no digits). -/
def parseIntJS (s : String) : Option Int :=
  let cs := jsTrim s.data
  let signAndRest : Int × List Char :=
    match cs with
    | '-' :: r => (-1, r)
    | '+' :: r => (1, r)
    | _ => (1, cs)
  let ds := signAndRest.2.takeWhile Char.isDigit
  if ds.isEmpty then none else some (signAndRest.1 * (digitsVal ds : Int))

/-! ## HTML escaping and slug generation (renderer/html-renderer.ts, plugins/toc.ts) -/

/-- Expansion of one character under the renderer's escapeHtml.  The source
applies five sequential global replacements (& < > " '); since no
replacement output contains a later pattern, this equals a single
character-wise expansion. -/
def escapeChar (c : Char) : List Char :=
  if c == '&' then "&amp;".data
  else if c == '<' then "&lt;".data
  else if c == '>' then "&gt;".data
  else if c == '"' then "&quot;".data
  else if c == '\'' then "&#039;".data
  else [c]

/-- escapeHtml of renderer/html-renderer.ts (also template.ts): escapes
ampersand, angle brackets and both quote characters. -/
def escapeHtml (s : String) : String :=
  String.mk (s.data.flatMap escapeChar)

/-- Expansion of one character under the local escapeHtml of
plugins/toc.ts, which escapes only ampersand and angle brackets. -/
def tocEscapeChar (c : Char) : List Char :=
  if c == '&' then "&amp;".data
  else if c == '<' then "&lt;".data
  else if c == '>' then "&gt;".data
  else [c]

/-- The local escapeHtml of plugins/toc.ts (three replacements only). -/
def tocEscapeHtml (s : String) : String :=
  String.mk (s.data.flatMap tocEscapeChar)

/-- The character class kept by slugify's first replacement
(removal of [^\w\s-]). -/
def slugKeep (c : Char) : Bool :=
  isWordChar c || isSpaceCh c || c == '-'

/-- slugify of renderer/html-renderer.ts: lower-case, strip characters
outside [\w\s-], whitespace runs to single hyphens, collapse hyphen runs,
final trim. -/
def slugify (s : String) : String :=
  String.mk (jsTrim (collapseRunsGo '-' false
    (wsRunsToGo '-' false ((s.data.map asciiLower).filter slugKeep))))

/-- Modelled from the spec: the external npm slugify package (not part of
src/) used with lower+strict to derive metadata.slug from the title —
"lowercase, non-alphanumeric stripped, whitespace to hyphens" (spec 4.2). -/
def npmSlugify (s : String) : String :=
  String.mk ((wsRunsToGo '-' false (s.data.map asciiLower)).filter
    (fun c => c.isAlpha || c.isDigit || c == '-'))

/-! ## Lexer (parser/lexer.ts) -/

inductive TokenType where
  | HEADING | LIST_ITEM | CODE_BLOCK_START | CODE_BLOCK_END
  | BLOCK_START | BLOCK_END | TABLE_ROW | DRAWER_START | DRAWER_END
  | SHORTCODE | PARAGRAPH | BLANK | TEXT
deriving Repr, DecidableEq, BEq

/-- A lexer token.  The optional fields model the entries of the
properties record that the lexer actually sets per token kind. -/
structure Token where
  type : TokenType
  value : String
  line : Nat
  indent : Nat
  level : Option Nat := none
  language : Option String := none
  blockType : Option String := none
  name : Option String := none
  ordered : Option Bool := none
  component : Option String := none
deriving Repr, DecidableEq

/-- The last two classifier branches: shortcode ^\{\{<\s*(\w+)(.*)>\}\}
or the total TEXT fallback (the full untrimmed line). -/
def tokenizeTextOrShortcode (i : Nat) (line : String) (trimmed : List Char)
    (indent : Nat) : Token :=
  let scOk :=
    matchPre ['{', '{', '<'] trimmed &&
      (let r := (trimmed.drop 3).dropWhile isSpaceCh
       match r with
       | c :: rc => isWordChar c && containsSub ['>', '}', '}'] rc
       | [] => false)
  if scOk then
    let r := (trimmed.drop 3).dropWhile isSpaceCh
    { type := .SHORTCODE, value := String.mk trimmed, line := i, indent,
      component := some (String.mk (r.takeWhile isWordChar)) }
  else
    { type := .TEXT, value := line, line := i, indent }

/-- Classify a single line, following the fixed precedence order of
tokenize: blank, heading, code-fence open, code-fence close, block open,
block close, drawer open, drawer close, table row, list item, shortcode,
plain text. -/
def tokenizeLine (i : Nat) (line : String) : Token :=
  let lc := line.data
  let trimmed := jsTrim lc
  let indent := lc.length - (lc.dropWhile isSpaceCh).length
  if trimmed.isEmpty then
    { type := .BLANK, value := "", line := i, indent }
  else
    -- Heading: ^(\*+)\s+(.*)$ on the trimmed line
    let stars := trimmed.takeWhile (· == '*')
    let afterStars := trimmed.dropWhile (· == '*')
    if !stars.isEmpty &&
        (match afterStars.head? with | some c => isSpaceCh c | none => false) then
      { type := .HEADING, value := String.mk (afterStars.dropWhile isSpaceCh),
        line := i, indent, level := some stars.length }
    -- Code block start: ^#\+BEGIN_SRC\s*  (case-insensitive, no end anchor)
    else if matchPreCI "#+BEGIN_SRC".data trimmed then
      let after := trimmed.drop 11
      let language :=
        match after.head? with
        | some c =>
          if isSpaceCh c then String.mk ((after.dropWhile isSpaceCh).takeWhile isWordChar)
          else ""
        | none => ""
      { type := .CODE_BLOCK_START, value := "", line := i, indent,
        language := some language }
    -- Code block end: ^#\+END_SRC (case-insensitive)
    else if matchPreCI "#+END_SRC".data trimmed then
      { type := .CODE_BLOCK_END, value := "", line := i, indent }
    -- Generic block start: ^#\+BEGIN_(\w+)
    else if matchPreCI "#+BEGIN_".data trimmed &&
        (match (trimmed.drop 8).head? with | some c => isWordChar c | none => false) then
      { type := .BLOCK_START, value := "", line := i, indent,
        blockType := some (String.mk (((trimmed.drop 8).takeWhile isWordChar).map asciiUpper)) }
    -- Generic block end: ^#\+END_(\w+)
    else if matchPreCI "#+END_".data trimmed &&
        (match (trimmed.drop 6).head? with | some c => isWordChar c | none => false) then
      { type := .BLOCK_END, value := "", line := i, indent,
        blockType := some (String.mk (((trimmed.drop 6).takeWhile isWordChar).map asciiUpper)) }
    -- Drawer start: ^:(\w+):$  (note: this also matches :END:, so the
    -- DRAWER_END branch below is unreachable, faithfully to the source)
    else if matchPre [':'] trimmed && trimmed.length ≥ 3 &&
        trimmed.getLast? == some ':' &&
        ((trimmed.drop 1).dropLast.all isWordChar) then
      { type := .DRAWER_START, value := String.mk trimmed, line := i, indent,
        name := some (String.mk ((trimmed.drop 1).dropLast)) }
    else if trimmed == ":END:".data then
      { type := .DRAWER_END, value := "", line := i, indent }
    -- Table row: startsWith '|'
    else if matchPre ['|'] trimmed then
      { type := .TABLE_ROW, value := String.mk trimmed, line := i, indent }
    else
      -- List item: ^([-+*]|\d+[.)])\s+(.*)$
      let listSplit : Option (Bool × List Char) :=
        match trimmed with
        | c :: rest =>
          if c == '-' || c == '+' || c == '*' then some (false, rest)
          else
            let ds := trimmed.takeWhile Char.isDigit
            if ds.isEmpty then none
            else
              match trimmed.drop ds.length with
              | p :: r2 => if p == '.' || p == ')' then some (true, r2) else none
              | [] => none
        | [] => none
      match listSplit with
      | some (ordered, afterMarker) =>
        if (match afterMarker.head? with | some c => isSpaceCh c | none => false) then
          { type := .LIST_ITEM, value := String.mk (afterMarker.dropWhile isSpaceCh),
            line := i, indent, ordered := some ordered }
        else tokenizeTextOrShortcode i line trimmed indent
      | none => tokenizeTextOrShortcode i line trimmed indent

/-- tokenize of parser/lexer.ts: split on newlines and classify each line. -/
def tokenize (content : String) : List Token :=
  ((splitCh '\n' content.data).map String.mk).enum.map
    (fun p => tokenizeLine p.1 p.2)

/-! ## AST (types.ts, parser/ast.ts)

The untyped tagged records produced by createNode/createTextNode are
embedded as a typed inductive: each constructor carries exactly the
properties and children that the parser actually stores for that node
type (text, image, footnote, lineBreak and shortcode nodes are created
without a children array; all others with one). -/

inductive AstNode where
  | text (value : String)
  | bold (children : List AstNode)
  | italic (children : List AstNode)
  | underline (children : List AstNode)
  | code (children : List AstNode)
  | verbatim (children : List AstNode)
  | strike (children : List AstNode)
  | link (href : String) (children : List AstNode)
  | image (src : String) (alt : String)
  | footnote (ref : String)
  | lineBreak
  | heading (level : Nat) (tags : List String) (children : List AstNode)
  | paragraph (children : List AstNode)
  | list (ordered : Bool) (children : List AstNode)
  | listItem (children : List AstNode)
  | table (children : List AstNode)
  | tableRow (children : List AstNode)
  | tableCell (children : List AstNode)
  | codeBlock (language : String) (children : List AstNode)
  | quote (children : List AstNode)
  | example (children : List AstNode)
  | verse (children : List AstNode)
  | center (children : List AstNode)
  | drawer (name : String) (children : List AstNode)
  | shortcode (component : String) (attrs : List (String × String))
deriving Repr

/-- The children array of a node, when present (text, image, footnote,
lineBreak and shortcode nodes carry none). -/
def childrenProp : AstNode → Option (List AstNode)
  | .text _ => none
  | .image _ _ => none
  | .footnote _ => none
  | .lineBreak => none
  | .shortcode _ _ => none
  | .bold cs => some cs
  | .italic cs => some cs
  | .underline cs => some cs
  | .code cs => some cs
  | .verbatim cs => some cs
  | .strike cs => some cs
  | .link _ cs => some cs
  | .heading _ _ cs => some cs
  | .paragraph cs => some cs
  | .list _ cs => some cs
  | .listItem cs => some cs
  | .table cs => some cs
  | .tableRow cs => some cs
  | .tableCell cs => some cs
  | .codeBlock _ cs => some cs
  | .quote cs => some cs
  | .example cs => some cs
  | .verse cs => some cs
  | .center cs => some cs
  | .drawer _ cs => some cs

/-! ## Metadata (parser/metadata.ts) -/

/-- A value in the options record: Org's t/nil booleans, a JS number
(none models NaN from a failed parseInt), or a raw string. -/
inductive OptVal where
  | bool (b : Bool)
  | num (n : Option Int)
  | str (s : String)
deriving Repr, DecidableEq

/-- The metadata record.  Fields default to the initial object
created at the top of extractMetadata. -/
structure OrgMetadata where
  title : Option String := none
  author : Option String := none
  date : Option String := none
  email : Option String := none
  description : Option String := none
  keywords : List String := []
  language : Option String := none
  category : Option String := none
  tags : List String := []
  options : List (String × OptVal) := []
  properties : List (String × String) := []
  slug : Option String := none
  canonical : Option String := none
  coverImage : Option String := none
  ogImage : Option String := none
  ogTitle : Option String := none
  ogDescription : Option String := none
  ogType : Option String := none
  twitterCard : Option String := none
  twitterSite : Option String := none
  twitterCreator : Option String := none
  themeColor : Option String := none
  robots : Option String := none
  readingTime : Option Nat := none
  wordCount : Option Nat := none
  excerpt : Option String := none
deriving Repr, DecidableEq

/-- JS object assignment obj[k] = v on an insertion-ordered record:
overwrite in place if the key exists, else append. -/
def setKey {α : Type} : List (String × α) → String → α → List (String × α)
  | [], k, v => [(k, v)]
  | (k2, v2) :: rest, k, v =>
    if k2 == k then (k, v) :: rest else (k2, v2) :: setKey rest k v

/-- JS object spread merge: assign every entry of the second record into
the first, in order. -/
def mergeKeys {α : Type} (base adds : List (String × α)) : List (String × α) :=
  adds.foldl (fun acc kv => setKey acc kv.1 kv.2) base

/-- parseFileTags: all matches of /:(\w+)/g, i.e. every colon followed by
a nonempty word run. -/
def fileTagsGo : List Char → List String
  | [] => []
  | ':' :: rest =>
    let w := rest.takeWhile isWordChar
    if w.isEmpty then fileTagsGo rest else String.mk w :: fileTagsGo rest
  | _ :: rest => fileTagsGo rest

def parseFileTags (value : String) : List String :=
  fileTagsGo value.data

/-- Left-to-right non-overlapping scan for /(\w+):(\S+)/g, returning the
two capture groups of each match; fuel-driven (the input length is
always sufficient since every step consumes at least one character). -/
def optScanGo : Nat → List Char → List (String × String)
  | 0, _ => []
  | _, [] => []
  | fuel + 1, c :: rest =>
    if isWordChar c then
      let w := (c :: rest).takeWhile isWordChar
      match (c :: rest).drop w.length with
      | ':' :: afterColon =>
        let v := afterColon.takeWhile (fun ch => !isSpaceCh ch)
        if v.isEmpty then optScanGo fuel rest
        else
          (String.mk w, String.mk v) ::
            optScanGo fuel ((c :: rest).drop (w.length + 1 + v.length))
      | _ => optScanGo fuel rest
    else optScanGo fuel rest

/-- One switch arm of parseOptions: destructure part.split(':') as
[key, value] (so value is the segment of the \S+ before its first colon)
and assign the typed field. -/
def applyOption (opts : List (String × OptVal)) (w v0 : String) :
    List (String × OptVal) :=
  let v := String.mk (v0.data.takeWhile (fun c => !(c == ':')))
  let key := String.mk (w.data.map asciiLower)
  if key == "toc" then
    setKey opts "toc"
      (if v == "nil" then .bool false
       else if v == "t" then .bool true
       else .num (parseIntJS v))
  else if key == "num" then setKey opts "num" (.bool (!(v == "nil")))
  else if key == "date" then setKey opts "date" (.bool (!(v == "nil")))
  else if key == "h" then setKey opts "H" (.num (parseIntJS v))
  else if key == "author" then setKey opts "author" (.bool (!(v == "nil")))
  else if key == "email" then setKey opts "email" (.bool (!(v == "nil")))
  else if key == "title" then setKey opts "title" (.bool (!(v == "nil")))
  else if key == "_" then setKey opts "subscript" (.bool (!(v == "nil")))
  else if key == "^" then setKey opts "superscript" (.bool (!(v == "nil")))
  else if key == "tex" then setKey opts "tex" (.bool (!(v == "nil")))
  else
    setKey opts w
      (if v == "nil" then .bool false
       else if v == "t" then .bool true
       else .str v)

/-- parseOptions of parser/metadata.ts. -/
def parseOptions (optionsString : String) : List (String × OptVal) :=
  (optScanGo optionsString.data.length optionsString.data).foldl
    (fun opts kv => applyOption opts kv.1 kv.2) []

/-- Match /^#\+(\w+):\s*(.*)$/ returning the key and the raw value
(leading whitespace of the value already consumed by \s*). -/
def metaLineMatch : List Char → Option (String × String)
  | '#' :: '+' :: rest =>
    let w := rest.takeWhile isWordChar
    if w.isEmpty then none
    else
      match rest.drop w.length with
      | ':' :: rest2 => some (String.mk w, String.mk (rest2.dropWhile isSpaceCh))
      | _ => none
  | _ => none

/-- Match /^:(\w+):\s*(.*)$/ for property-drawer lines. -/
def propLineMatch : List Char → Option (String × String)
  | ':' :: rest =>
    let w := rest.takeWhile isWordChar
    if w.isEmpty then none
    else
      match rest.drop w.length with
      | ':' :: rest2 => some (String.mk w, String.mk (rest2.dropWhile isSpaceCh))
      | _ => none
  | _ => none

/-- The switch over known metadata keys (key already upper-cased, value
already trimmed); unknown keys are stored into properties. -/
def applyMetaKey (md : OrgMetadata) (key value : String) : OrgMetadata :=
  if key == "TITLE" then { md with title := some value }
  else if key == "AUTHOR" then { md with author := some value }
  else if key == "DATE" then { md with date := some value }
  else if key == "EMAIL" then { md with email := some value }
  else if key == "DESCRIPTION" then { md with description := some value }
  else if key == "KEYWORDS" then
    { md with keywords := (splitCh ',' value.data).map (fun k => String.mk (jsTrim k)) }
  else if key == "LANGUAGE" then { md with language := some value }
  else if key == "CATEGORY" then { md with category := some value }
  else if key == "FILETAGS" then { md with tags := parseFileTags value }
  else if key == "OPTIONS" then
    { md with options := mergeKeys md.options (parseOptions value) }
  else if key == "CANONICAL" then { md with canonical := some value }
  else if key == "COVER_IMAGE" then { md with coverImage := some value }
  else if key == "OG_IMAGE" then { md with ogImage := some value }
  else if key == "OG_TITLE" then { md with ogTitle := some value }
  else if key == "OG_DESCRIPTION" then { md with ogDescription := some value }
  else if key == "OG_TYPE" then { md with ogType := some value }
  else if key == "TWITTER_CARD" then { md with twitterCard := some value }
  else if key == "TWITTER_SITE" then { md with twitterSite := some value }
  else if key == "TWITTER_CREATOR" then { md with twitterCreator := some value }
  else if key == "THEME_COLOR" then { md with themeColor := some value }
  else if key == "ROBOTS" then { md with robots := some value }
  else { md with properties := setKey md.properties key value }

/-- The main loop of extractMetadata, consuming the lines one by one.
The returned Nat is the index of the first unconsumed line
(contentStartLine). -/
def extractGo : List String → Nat → OrgMetadata → Bool →
    List (String × String) → OrgMetadata × Nat
  | [], i, md, _, _ => (md, i)
  | l :: rest, i, md, inDrawer, props =>
    let line := jsTrim l.data
    if line == ":PROPERTIES:".data then extractGo rest (i + 1) md true props
    else if line == ":END:".data && inDrawer then
      extractGo rest (i + 1) { md with properties := mergeKeys md.properties props }
        false props
    else if inDrawer then
      match propLineMatch line with
      | some (k, v) => extractGo rest (i + 1) md true (setKey props k v)
      | none => extractGo rest (i + 1) md true props
    else
      match metaLineMatch line with
      | some (k, v) =>
        extractGo rest (i + 1)
          (applyMetaKey md (String.mk (k.data.map asciiUpper)) (String.mk (jsTrim v.data)))
          false props
      | none =>
        -- Stop when we hit content: non-blank and starting with neither # nor :
        if !line.isEmpty && !matchPre ['#'] line && !matchPre [':'] line then (md, i)
        else extractGo rest (i + 1) md false props

/-- extractMetadata of parser/metadata.ts. -/
def extractMetadata (lines : List String) : OrgMetadata × Nat :=
  let r := extractGo lines 0 {} false []
  match r.1.title with
  | some t => ({ r.1 with slug := some (npmSlugify t) }, r.2)
  | none => r

/-- calculateReadingTime: ceil(wordcount / 200) with JS split(/\s+/). -/
def calculateReadingTime (text : String) : Nat :=
  ((splitWsJs text.data).length + 199) / 200

/-- extractExcerpt: collapse whitespace, trim, truncate to maxLength. -/
def extractExcerpt (text : String) (maxLength : Nat := 160) : String :=
  let cleaned := String.mk (jsTrim (wsRunsToGo ' ' false text.data))
  if cleaned.length ≤ maxLength then cleaned
  else String.mk (jsTrim (cleaned.data.take maxLength)) ++ "..."

/-! ## Inline markup parser (parser/parser.ts, parseInlineMarkup) -/

/-- Flush the pending plain-text accumulator into a text leaf
(no node for an empty accumulator). -/
def flushText (cur : List Char) : List AstNode :=
  if cur.isEmpty then [] else [.text (String.mk cur)]

/-- Known image extensions: /\.(png|jpg|jpeg|gif|svg|webp)$/i. -/
def isImageUrl (u : List Char) : Bool :=
  let lu := u.map asciiLower
  endsL ".png".data lu || endsL ".jpg".data lu || endsL ".jpeg".data lu ||
    endsL ".gif".data lu || endsL ".svg".data lu || endsL ".webp".data lu

/-- Build the node for a [[...]] construct from its bracket content:
split on "][", take the first segment as url, the second (if present and
nonempty, modelling parts[1] || url) as description; emit an image leaf
for image extensions, else a link wrapping a single text child. -/
def mkLinkNode (content : List Char) : AstNode :=
  let parts := splitSepBrk content
  let url := (parts.head?).getD []
  let description :=
    match parts with
    | _ :: d :: _ => if d.isEmpty then url else d
    | _ => url
  if isImageUrl url then .image (String.mk url) (String.mk description)
  else .link (String.mk url) [.text (String.mk description)]

/-- The scanning loop of parseInlineMarkup.  One fuel unit per loop
iteration; the input length is always sufficient fuel because every
branch consumes at least one character (theorem parseInlineMarkup_fuel).
The source flushes the accumulator as soon as an opener's guard passes,
even when the closing-marker scan then fails and the opener falls
through to plain text; this is mirrored in the none branches. -/
def inlineGo : Nat → List Char → List Char → List AstNode
  | _, [], cur => flushText cur
  | 0, cs, cur => flushText (cur ++ cs)
  | fuel + 1, c :: rest, cur =>
    -- Bold: *text*  (content recursively inline-parsed)
    if c == '*' && !(rest.head? == some ' ') then
      match findCh '*' rest with
      | some j =>
        flushText cur ++
          (.bold (inlineGo fuel (rest.take j) []) :: inlineGo fuel (rest.drop (j + 1)) [])
      | none => flushText cur ++ inlineGo fuel rest [c]
    -- Italic: /text/  (single text leaf)
    else if c == '/' && !(rest.head? == some ' ') then
      match findCh '/' rest with
      | some j =>
        flushText cur ++
          (.italic [.text (String.mk (rest.take j))] :: inlineGo fuel (rest.drop (j + 1)) [])
      | none => flushText cur ++ inlineGo fuel rest [c]
    -- Underline: _text_
    else if c == '_' && !(rest.head? == some ' ') then
      match findCh '_' rest with
      | some j =>
        flushText cur ++
          (.underline [.text (String.mk (rest.take j))] :: inlineGo fuel (rest.drop (j + 1)) [])
      | none => flushText cur ++ inlineGo fuel rest [c]
    -- Code ~text~ or verbatim =text=
    else if (c == '~' || c == '=') && !(rest.head? == some ' ') then
      match findCh c rest with
      | some j =>
        flushText cur ++
          ((if c == '~' then AstNode.code [.text (String.mk (rest.take j))]
            else AstNode.verbatim [.text (String.mk (rest.take j))]) ::
            inlineGo fuel (rest.drop (j + 1)) [])
      | none => flushText cur ++ inlineGo fuel rest [c]
    -- Strike: +text+
    else if c == '+' && !(rest.head? == some ' ') then
      match findCh '+' rest with
      | some j =>
        flushText cur ++
          (.strike [.text (String.mk (rest.take j))] :: inlineGo fuel (rest.drop (j + 1)) [])
      | none => flushText cur ++ inlineGo fuel rest [c]
    -- Links: [[url][description]] or [[url]]
    else if c == '[' && rest.head? == some '[' then
      match findSub2 ']' ']' (rest.drop 1) with
      | some j =>
        flushText cur ++
          (mkLinkNode ((rest.drop 1).take j) :: inlineGo fuel ((rest.drop 1).drop (j + 2)) [])
      | none => flushText cur ++ inlineGo fuel rest [c]
    -- Footnotes: [fn:ref]
    else if matchPre ['[', 'f', 'n', ':'] (c :: rest) then
      match findCh ']' (rest.drop 3) with
      | some j =>
        flushText cur ++
          (.footnote (String.mk ((rest.drop 3).take j)) ::
            inlineGo fuel ((rest.drop 3).drop (j + 1)) [])
      | none => flushText cur ++ inlineGo fuel rest [c]
    -- Line break: backslash backslash
    else if c == '\\' && rest.head? == some '\\' then
      flushText cur ++ (.lineBreak :: inlineGo fuel (rest.drop 1) [])
    else inlineGo fuel rest (cur ++ [c])

/-- parseInlineMarkup of parser/parser.ts. -/
def parseInlineMarkup (s : String) : List AstNode :=
  inlineGo s.data.length s.data []

/-! ## Block-level parser (parser/parser.ts) -/

/-- Search for the heading-tag suffix /^(.*?)\s+:([\w:]+):$/: the lazy
prefix means the earliest whitespace run after which the entire remainder
has the form :tags: (tags nonempty over [\w:]).  Returns the prefix
(match[1]) and the tag middle (match[2]). -/
def headingTagSplit : List Char → Option (List Char × List Char)
  | [] => none
  | c :: rest =>
    let tryHere : Option (List Char × List Char) :=
      if isSpaceCh c then
        let t := (c :: rest).dropWhile isSpaceCh
        match t with
        | ':' :: t2 =>
          let mid := t2.dropLast
          if t2.getLast? == some ':' && !mid.isEmpty && mid.all (fun x => isWordChar x || x == ':')
          then some ([], mid) else none
        | _ => none
      else none
    match tryHere with
    | some r => some r
    | none => (headingTagSplit rest).map (fun pr => (c :: pr.1, pr.2))

/-- parseHeading: level from token properties (|| 1, so 0 becomes 1),
trailing :tag1:tag2: suffix split off, remaining text inline-parsed. -/
def parseHeading (t : Token) : AstNode :=
  let level := match t.level with | some l => if l == 0 then 1 else l | none => 1
  let text := t.value
  match headingTagSplit text.data with
  | some (p, mid) =>
    .heading level ((splitCh ':' mid).filter (fun s => !s.isEmpty) |>.map String.mk)
      (parseInlineMarkup (String.mk p))
  | none => .heading level [] (parseInlineMarkup text)

/-- parseCodeBlock: consume raw lines until CODE_BLOCK_END; the content
becomes a single text leaf, not inline-parsed.  Returns the node and the
tokens after the consumed end marker. -/
def parseCodeBlock (startTok : Token) (rest : List Token) : AstNode × List Token :=
  let language := (startTok.language).getD ""
  let content := rest.takeWhile (fun t => !(t.type == .CODE_BLOCK_END))
  (.codeBlock language [.text (joinStrs "\n" (content.map (·.value)))],
    (rest.dropWhile (fun t => !(t.type == .CODE_BLOCK_END))).drop 1)

/-- parseBlock: consume until BLOCK_END; content IS inline-parsed;
unknown block types default to quote. -/
def parseBlock (startTok : Token) (rest : List Token) : AstNode × List Token :=
  let blockType :=
    match startTok.blockType with
    | some bt => if bt == "" then "QUOTE" else bt
    | none => "QUOTE"
  let content :=
    joinStrs "\n" ((rest.takeWhile (fun t => !(t.type == .BLOCK_END))).map (·.value))
  let children := parseInlineMarkup content
  let node :=
    if blockType == "QUOTE" then AstNode.quote children
    else if blockType == "EXAMPLE" then AstNode.example children
    else if blockType == "VERSE" then AstNode.verse children
    else if blockType == "CENTER" then AstNode.center children
    else AstNode.quote children
  (node, (rest.dropWhile (fun t => !(t.type == .BLOCK_END))).drop 1)

/-- The separator-row pattern /^\|[-+:| ]+\|$/. -/
def sepRow (v : List Char) : Bool :=
  v.length ≥ 3 && matchPre ['|'] v && v.getLast? == some '|' &&
    ((v.drop 1).dropLast.all
      (fun c => c == '-' || c == '+' || c == ':' || c == '|' || c == ' '))

/-- One data row: split on '|', drop the outer empty fields, trim each
cell, inline-parse it into a tableCell. -/
def mkTableRow (value : String) : AstNode :=
  let cells := (((splitCh '|' value.data).drop 1).dropLast).map
    (fun cell => String.mk (jsTrim cell))
  .tableRow (cells.map (fun cell => .tableCell (parseInlineMarkup cell)))

/-- The loop of parseTable: consume consecutive TABLE_ROW tokens,
skipping separator rows.  Returns the row nodes and the unconsumed
tokens. -/
def parseTableGo : List Token → List AstNode × List Token
  | [] => ([], [])
  | t :: rest =>
    if t.type == .TABLE_ROW then
      if sepRow t.value.data then parseTableGo rest
      else
        let r := parseTableGo rest
        (mkTableRow t.value :: r.1, r.2)
    else ([], t :: rest)

/-- The loop of parseList: consume consecutive LIST_ITEM tokens sharing
the opening item's indent. -/
def parseListGo (b : Nat) : List Token → List AstNode × List Token
  | [] => ([], [])
  | t :: rest =>
    if t.type == .LIST_ITEM && t.indent == b then
      let r := parseListGo b rest
      (.listItem (parseInlineMarkup t.value) :: r.1, r.2)
    else ([], t :: rest)

/-- parseDrawer: consume until DRAWER_END; a PROPERTIES drawer yields no
node, any other name a raw drawer node with one text leaf. -/
def parseDrawer (startTok : Token) (rest : List Token) :
    Option AstNode × List Token :=
  let drawerName := (startTok.name).getD ""
  let content := rest.takeWhile (fun t => !(t.type == .DRAWER_END))
  let after := (rest.dropWhile (fun t => !(t.type == .DRAWER_END))).drop 1
  if drawerName == "PROPERTIES" then (none, after)
  else (some (.drawer drawerName [.text (joinStrs "\n" (content.map (·.value)))]), after)

/-- Search anywhere in the value for /\{\{<\s*(\w+)(.*?)>\}\}/, returning
the component name and the raw attribute text (lazy middle: up to the
earliest closing marker after the word run). -/
def shortcodeMatchAt : List Char → Option (String × String)
  | [] => none
  | c :: rest =>
    let tryHere : Option (String × String) :=
      if matchPre ['{', '{', '<'] (c :: rest) then
        let afterWs := ((c :: rest).drop 3).dropWhile isSpaceCh
        let w := afterWs.takeWhile isWordChar
        if w.isEmpty then none
        else
          let afterWord := afterWs.drop w.length
          match findSub3 '>' '}' '}' afterWord with
          | some k => some (String.mk w, String.mk (afterWord.take k))
          | none => none
      else none
    match tryHere with
    | some r => some r
    | none => shortcodeMatchAt rest

/-- Left-to-right non-overlapping scan for /(\w+)="([^"]*)"/g over the
attribute text, fuel-driven. -/
def attrScanGo : Nat → List Char → List (String × String)
  | 0, _ => []
  | _, [] => []
  | fuel + 1, c :: rest =>
    if isWordChar c then
      let w := (c :: rest).takeWhile isWordChar
      match (c :: rest).drop w.length with
      | '=' :: '"' :: afterQ =>
        let v := afterQ.takeWhile (fun ch => !(ch == '"'))
        match afterQ.drop v.length with
        | '"' :: _ =>
          (String.mk w, String.mk v) ::
            attrScanGo fuel ((c :: rest).drop (w.length + 2 + v.length + 1))
        | _ => attrScanGo fuel rest
      | _ => attrScanGo fuel rest
    else attrScanGo fuel rest

/-- parseShortcode: a failed match degrades to a plain text node. -/
def parseShortcode (t : Token) : AstNode :=
  match shortcodeMatchAt t.value.data with
  | none => .text t.value
  | some (comp, attrsRaw) =>
    let attrs := attrScanGo (jsTrim attrsRaw.data).length (jsTrim attrsRaw.data)
    .shortcode comp attrs

/-- parseParagraph: join a consecutive TEXT run (each line trimmed) with
single spaces and inline-parse it; an empty run yields no node. -/
def parseParagraph (toks : List Token) : Option AstNode × List Token :=
  let lines := (toks.takeWhile (fun t => t.type == .TEXT)).map
    (fun t => String.mk (jsTrim t.value.data))
  let after := toks.dropWhile (fun t => t.type == .TEXT)
  if lines.isEmpty then (none, after)
  else (some (.paragraph (parseInlineMarkup (joinStrs " " lines))), after)

/-- The main dispatch loop of parseTokens.  One fuel unit per iteration;
every sub-parser consumes at least one token, so the token count is
always sufficient fuel. -/
def parseTokensGo : Nat → List Token → List AstNode
  | 0, _ => []
  | _, [] => []
  | fuel + 1, t :: rest =>
    match t.type with
    | .HEADING => parseHeading t :: parseTokensGo fuel rest
    | .CODE_BLOCK_START =>
      let r := parseCodeBlock t rest
      r.1 :: parseTokensGo fuel r.2
    | .BLOCK_START =>
      let r := parseBlock t rest
      r.1 :: parseTokensGo fuel r.2
    | .TABLE_ROW =>
      let r := parseTableGo (t :: rest)
      .table r.1 :: parseTokensGo fuel r.2
    | .LIST_ITEM =>
      let r := parseListGo t.indent (t :: rest)
      .list ((t.ordered).getD false) r.1 :: parseTokensGo fuel r.2
    | .DRAWER_START =>
      let r := parseDrawer t rest
      match r.1 with
      | some n => n :: parseTokensGo fuel r.2
      | none => parseTokensGo fuel r.2
    | .SHORTCODE => parseShortcode t :: parseTokensGo fuel rest
    | .TEXT =>
      let r := parseParagraph (t :: rest)
      match r.1 with
      | some n => n :: parseTokensGo fuel r.2
      | none => parseTokensGo fuel r.2
    | .BLANK => parseTokensGo fuel rest
    | _ => parseTokensGo fuel rest

/-- parseTokens of parser/parser.ts. -/
def parseTokens (tokens : List Token) : List AstNode :=
  parseTokensGo tokens.length tokens

mutual

/-- extractPlainText of parser/parser.ts: concatenate every node's value
(when truthy) and recursively its children (when a children array is
present), each followed by a space. -/
def extractPlainText : List AstNode → String
  | [] => ""
  | n :: rest => extractPlainTextNode n ++ extractPlainText rest

def extractPlainTextNode : AstNode → String
  | .text v => if v.isEmpty then "" else v ++ " "
  | .image _ _ => ""
  | .footnote _ => ""
  | .lineBreak => ""
  | .shortcode _ _ => ""
  | .bold cs => extractPlainText cs ++ " "
  | .italic cs => extractPlainText cs ++ " "
  | .underline cs => extractPlainText cs ++ " "
  | .code cs => extractPlainText cs ++ " "
  | .verbatim cs => extractPlainText cs ++ " "
  | .strike cs => extractPlainText cs ++ " "
  | .link _ cs => extractPlainText cs ++ " "
  | .heading _ _ cs => extractPlainText cs ++ " "
  | .paragraph cs => extractPlainText cs ++ " "
  | .list _ cs => extractPlainText cs ++ " "
  | .listItem cs => extractPlainText cs ++ " "
  | .table cs => extractPlainText cs ++ " "
  | .tableRow cs => extractPlainText cs ++ " "
  | .tableCell cs => extractPlainText cs ++ " "
  | .codeBlock _ cs => extractPlainText cs ++ " "
  | .quote cs => extractPlainText cs ++ " "
  | .example cs => extractPlainText cs ++ " "
  | .verse cs => extractPlainText cs ++ " "
  | .center cs => extractPlainText cs ++ " "
  | .drawer _ cs => extractPlainText cs ++ " "

end

/-- The document AST: the document root owns the metadata. -/
structure OrgAst where
  metadata : OrgMetadata
  children : List AstNode

/-- parse of parser/parser.ts: extract metadata, tokenize the remaining
lines, build the AST, then enrich the metadata with reading time, word
count and excerpt. -/
def parse (content : String) : OrgAst :=
  let lines := (splitCh '\n' content.data).map String.mk
  let em := extractMetadata lines
  let contentLines := lines.drop em.2
  let tokens := tokenize (joinStrs "\n" contentLines)
  let children := parseTokens tokens
  let plainText := extractPlainText children
  let md2 := { em.1 with
    readingTime := some (calculateReadingTime plainText),
    wordCount := some (splitWsJs plainText.data).length }
  let excerptFalsy := match md2.excerpt with | none => true | some s => s.isEmpty
  let descTruthy := match md2.description with | none => false | some s => !s.isEmpty
  let md3 :=
    if excerptFalsy && descTruthy then { md2 with excerpt := md2.description }
    else if excerptFalsy then { md2 with excerpt := some (extractExcerpt plainText) }
    else md2
  { metadata := md3, children := children }

/-! ## HTML renderer (renderer/html-renderer.ts, plugins/toc.ts)

The two external collaborators are out of core scope (spec section 6):
the code highlighter and the sanitizer are taken as function parameters
hl and san.  All other rendering is embedded from the source.  The async
structure of the source is irrelevant to the produced strings (awaits
happen strictly in document order), so the embedding is direct. -/

/-- Render options as read by the renderer (sanitize, codeHighlight);
absent fields model absent JS properties. -/
structure RenderOptions where
  sanitize : Option Bool := none
  codeHighlight : Option Bool := none
deriving Repr, DecidableEq

/-- The renderer-private context: footnote map (insertion-ordered),
footnote display counter, collected heading records, active options. -/
structure RenderCtx where
  options : RenderOptions := {}
  footnotes : List (String × String) := []
  footnoteCounter : Nat := 1
  headings : List (Nat × String × String) := []
deriving Repr

/-- Repeated ul opening tags (the while pushing into deeper levels). -/
def ulOpen : Nat → String
  | 0 => ""
  | k + 1 => "<ul>" ++ ulOpen k

/-- Repeated ul closing tags. -/
def ulClose : Nat → String
  | 0 => ""
  | k + 1 => "</ul>" ++ ulClose k

/-- heading.level > maxDepth with a JS number (none models NaN, for
which the comparison is false). -/
def levelGtDepth (lvl : Nat) (d : Option Int) : Bool :=
  match d with
  | none => false
  | some x => (lvl : Int) > x

/-- generateToc of plugins/toc.ts.  The running currentLevel starts at
the first heading's level; headings beyond maxDepth are skipped before
the nesting adjustment; each rendered heading leaves currentLevel at its
own level, so the two whiles amount to the level difference in ul
tags. -/
def generateToc (headings : List (Nat × String × String)) (maxDepth : Option Int) :
    String :=
  match headings with
  | [] => ""
  | first :: _ =>
    let initLevel := first.1
    let r := headings.foldl
      (fun (acc : String × Nat) h =>
        if levelGtDepth h.1 maxDepth then acc
        else
          (acc.1 ++ ulOpen (h.1 - acc.2) ++ ulClose (acc.2 - h.1) ++
            "<li><a href=\"#" ++ h.2.2 ++ "\">" ++ tocEscapeHtml h.2.1 ++ "</a></li>",
            h.1))
      ("", initLevel)
    "<nav class=\"toc\"><h2>Table of Contents</h2><ul>" ++ r.1 ++
      ulClose (r.2 - initLevel) ++ "</ul></nav>\n"

mutual

/-- renderChildrenSync of renderer/html-renderer.ts: the per-child
dispatch (text, bold, italic, code, link; fallback recursively renders
children, which is empty for leaf nodes). -/
def renderChildSync : AstNode → String
  | .text v => escapeHtml v
  | .bold cs => "<strong>" ++ renderChildrenSyncList cs ++ "</strong>"
  | .italic cs => "<em>" ++ renderChildrenSyncList cs ++ "</em>"
  | .code cs => "<code>" ++ renderChildrenSyncList cs ++ "</code>"
  | .link href cs =>
    "<a href=\"" ++ escapeHtml href ++ "\">" ++ renderChildrenSyncList cs ++ "</a>"
  | .underline cs => renderChildrenSyncList cs
  | .verbatim cs => renderChildrenSyncList cs
  | .strike cs => renderChildrenSyncList cs
  | .heading _ _ cs => renderChildrenSyncList cs
  | .paragraph cs => renderChildrenSyncList cs
  | .list _ cs => renderChildrenSyncList cs
  | .listItem cs => renderChildrenSyncList cs
  | .table cs => renderChildrenSyncList cs
  | .tableRow cs => renderChildrenSyncList cs
  | .tableCell cs => renderChildrenSyncList cs
  | .codeBlock _ cs => renderChildrenSyncList cs
  | .quote cs => renderChildrenSyncList cs
  | .example cs => renderChildrenSyncList cs
  | .verse cs => renderChildrenSyncList cs
  | .center cs => renderChildrenSyncList cs
  | .drawer _ cs => renderChildrenSyncList cs
  | .image _ _ => ""
  | .footnote _ => ""
  | .lineBreak => ""
  | .shortcode _ _ => ""

def renderChildrenSyncList : List AstNode → String
  | [] => ""
  | n :: rest => renderChildSync n ++ renderChildrenSyncList rest

end

/-- renderChildrenSync applied to a node: empty when the node has no
children array. -/
def renderChildrenSync (n : AstNode) : String :=
  match childrenProp n with
  | some cs => renderChildrenSyncList cs
  | none => ""

mutual

/-- The renderer's visible-text projection: renderChildSync with all
markup (tags and HTML escaping) stripped away.  Used to state the
round-trip property of spec section 8. -/
def inlineVisibleNode : AstNode → String
  | .text v => v
  | .bold cs => inlineVisible cs
  | .italic cs => inlineVisible cs
  | .code cs => inlineVisible cs
  | .link _ cs => inlineVisible cs
  | .underline cs => inlineVisible cs
  | .verbatim cs => inlineVisible cs
  | .strike cs => inlineVisible cs
  | .heading _ _ cs => inlineVisible cs
  | .paragraph cs => inlineVisible cs
  | .list _ cs => inlineVisible cs
  | .listItem cs => inlineVisible cs
  | .table cs => inlineVisible cs
  | .tableRow cs => inlineVisible cs
  | .tableCell cs => inlineVisible cs
  | .codeBlock _ cs => inlineVisible cs
  | .quote cs => inlineVisible cs
  | .example cs => inlineVisible cs
  | .verse cs => inlineVisible cs
  | .center cs => inlineVisible cs
  | .drawer _ cs => inlineVisible cs
  | .image _ _ => ""
  | .footnote _ => ""
  | .lineBreak => ""
  | .shortcode _ _ => ""

def inlineVisible : List AstNode → String
  | [] => ""
  | n :: rest => inlineVisibleNode n ++ inlineVisible rest

end

/-- The children text used for the heading slug:
children.map(c => String(c.value ?? '')).join('') — non-text children
contribute the empty string. -/
def childValuesJoin (cs : List AstNode) : String :=
  cs.foldl (fun a c => a ++ (match c with | .text v => v | _ => "")) ""

/-- renderHeading: clamp the level with Math.min(level, 6), derive the
slug id, record the heading for the TOC, emit the hN element.  The
heading-number prefix is the empty string on both branches of the source
(numbering is unimplemented). -/
def renderHeading (n : AstNode) (ctx : RenderCtx) : String × RenderCtx :=
  match n with
  | .heading lvl _ cs =>
    let level := min lvl 6
    let text := childValuesJoin cs
    let id := slugify text
    let ctx2 := { ctx with headings := ctx.headings ++ [(level, text, id)] }
    ("<h" ++ toString level ++ " id=\"" ++ escapeHtml id ++ "\">" ++
      renderChildrenSync n ++ "</h" ++ toString level ++ ">\n", ctx2)
  | _ => ("", ctx)

/-- renderParagraph (children rendered synchronously). -/
def renderParagraph (n : AstNode) : String :=
  "<p>" ++ renderChildrenSync n ++ "</p>\n"

/-- renderShortcode: placeholder marker element with escaped attributes. -/
def renderShortcode (component : String) (attrs : List (String × String)) : String :=
  let attrString :=
    joinStrs " " (attrs.map (fun kv => escapeHtml kv.1 ++ "=\"" ++ escapeHtml kv.2 ++ "\""))
  "<div data-component=\"" ++ escapeHtml component ++ "\" " ++ attrString ++ "></div>\n"

/-- renderFootnote: take the current counter, record the placeholder
body under the reference id, emit the sup anchor. -/
def renderFootnote (ref : String) (ctx : RenderCtx) : String × RenderCtx :=
  let num := ctx.footnoteCounter
  let ctx2 := { ctx with
    footnoteCounter := num + 1,
    footnotes := setKey ctx.footnotes ref ("Footnote " ++ escapeHtml ref) }
  ("<sup id=\"fnref-" ++ escapeHtml ref ++ "\"><a href=\"#fn-" ++ escapeHtml ref ++
    "\">" ++ toString num ++ "</a></sup>", ctx2)

mutual

/-- renderNode of renderer/html-renderer.ts, with the external
highlighter as the parameter hl. -/
def renderNode (hl : String → String → String) (n : AstNode) (ctx : RenderCtx) :
    String × RenderCtx :=
  match n with
  | .heading lvl tags cs => renderHeading (.heading lvl tags cs) ctx
  | .paragraph cs => (renderParagraph (.paragraph cs), ctx)
  | .list ordered cs =>
    let r := renderNodes hl cs ctx
    let tag := if ordered then "ol" else "ul"
    ("<" ++ tag ++ ">\n" ++ r.1 ++ "</" ++ tag ++ ">\n", r.2)
  | .listItem cs =>
    let r := renderNodes hl cs ctx
    ("<li>" ++ r.1 ++ "</li>\n", r.2)
  | .table cs =>
    let r := renderNodes hl cs ctx
    ("<table>\n<tbody>\n" ++ r.1 ++ "</tbody>\n</table>\n", r.2)
  | .tableRow cs =>
    let r := renderNodes hl cs ctx
    ("<tr>\n" ++ r.1 ++ "</tr>\n", r.2)
  | .tableCell cs =>
    let r := renderNodes hl cs ctx
    ("<td>" ++ r.1 ++ "</td>\n", r.2)
  | .codeBlock language cs =>
    let codeVal := match cs with | .text v :: _ => v | _ => ""
    if !(ctx.options.codeHighlight == some false) then
      ("<pre><code class=\"language-" ++ escapeHtml language ++ "\">" ++
        hl codeVal language ++ "</code></pre>\n", ctx)
    else
      ("<pre><code class=\"language-" ++ escapeHtml language ++ "\">" ++
        escapeHtml codeVal ++ "</code></pre>\n", ctx)
  | .quote cs =>
    let r := renderNodes hl cs ctx
    ("<blockquote>\n" ++ r.1 ++ "</blockquote>\n", r.2)
  | .example cs =>
    let r := renderNodes hl cs ctx
    ("<pre class=\"example\">" ++ r.1 ++ "</pre>\n", r.2)
  | .verse cs =>
    let r := renderNodes hl cs ctx
    ("<p class=\"verse\">" ++ r.1 ++ "</p>\n", r.2)
  | .center cs =>
    let r := renderNodes hl cs ctx
    ("<div class=\"center\">" ++ r.1 ++ "</div>\n", r.2)
  | .shortcode component attrs => (renderShortcode component attrs, ctx)
  | .bold cs =>
    let r := renderNodes hl cs ctx
    ("<strong>" ++ r.1 ++ "</strong>", r.2)
  | .italic cs =>
    let r := renderNodes hl cs ctx
    ("<em>" ++ r.1 ++ "</em>", r.2)
  | .underline cs =>
    let r := renderNodes hl cs ctx
    ("<u>" ++ r.1 ++ "</u>", r.2)
  | .code cs =>
    let r := renderNodes hl cs ctx
    ("<code>" ++ r.1 ++ "</code>", r.2)
  | .verbatim cs =>
    let r := renderNodes hl cs ctx
    ("<code class=\"verbatim\">" ++ r.1 ++ "</code>", r.2)
  | .strike cs =>
    let r := renderNodes hl cs ctx
    ("<del>" ++ r.1 ++ "</del>", r.2)
  | .link href cs =>
    ("<a href=\"" ++ escapeHtml href ++ "\">" ++
      renderChildrenSync (.link href cs) ++ "</a>", ctx)
  | .image src alt =>
    ("<img src=\"" ++ escapeHtml src ++ "\" alt=\"" ++ escapeHtml alt ++ "\">", ctx)
  | .footnote ref => renderFootnote ref ctx
  | .lineBreak => ("<br>", ctx)
  | .text v => (escapeHtml v, ctx)
  | .drawer _ _ => ("", ctx)

/-- renderChildren: render a node list in order, threading the context. -/
def renderNodes (hl : String → String → String) (ns : List AstNode) (ctx : RenderCtx) :
    String × RenderCtx :=
  match ns with
  | [] => ("", ctx)
  | n :: rest =>
    let r1 := renderNode hl n ctx
    let r2 := renderNodes hl rest r1.2
    (r1.1 ++ r2.1, r2.2)

end

/-- The three assembled fragments of renderToHtml before sanitization,
plus the mirrored metadata. -/
structure RenderParts where
  toc : String
  body : String
  footnotes : String
  metadata : OrgMetadata

/-- The body walk and the TOC/footnote assembly of renderToHtml.
TOC is generated when metadata.options.toc is not literally false and at
least one heading was collected; its depth is the numeric toc option or
3.  Footnotes are listed in first-insertion order. -/
def renderToHtmlParts (hl : String → String → String) (ast : OrgAst)
    (options : RenderOptions) : RenderParts :=
  let r := renderNodes hl ast.children { options := options }
  let ctx := r.2
  let tocEnabled := !(List.lookup "toc" ast.metadata.options == some (.bool false))
  let tocHtml :=
    if tocEnabled && !ctx.headings.isEmpty then
      let tocDepth : Option Int :=
        match List.lookup "toc" ast.metadata.options with
        | some (.num d) => d
        | _ => some 3
      generateToc ctx.headings tocDepth
    else ""
  let footnotesHtml :=
    if !ctx.footnotes.isEmpty then
      "<div class=\"footnotes\"><hr><ol>" ++
        joinStrs "" (ctx.footnotes.map (fun kv =>
          "<li id=\"fn-" ++ escapeHtml kv.1 ++ "\">" ++ kv.2 ++
            " <a href=\"#fnref-" ++ escapeHtml kv.1 ++ "\">â†©</a></li>")) ++
        "</ol></div>"
    else ""
  { toc := tocHtml, body := r.1, footnotes := footnotesHtml, metadata := ast.metadata }

/-- The result of renderToHtml. -/
structure RenderResult where
  html : String
  metadata : OrgMetadata

/-- renderToHtml: TOC, then body, then footnotes; the concatenation goes
through the external sanitizer san unless options.sanitize is literally
false; the input metadata is mirrored through unmodified. -/
def renderToHtml (hl : String → String → String) (san : String → String)
    (ast : OrgAst) (options : RenderOptions) : RenderResult :=
  let parts := renderToHtmlParts hl ast options
  let fullHtml := parts.toc ++ parts.body ++ parts.footnotes
  { html := if !(options.sanitize == some false) then san fullHtml else fullHtml,
    metadata := ast.metadata }

/-- A stand-in for the external highlighter collaborator, used to
instantiate closed evaluations (none of the concrete inputs contains a
code block, so its value never appears in them). -/
def idHighlight : String → String → String := fun code _ => code

/-! ## Helper lemmas -/

/-- Characters that trigger no inline-markup branch: everything except
the six emphasis markers, the opening bracket and the backslash. -/
def plainInlineChar (c : Char) : Bool :=
  !(c == '*' || c == '/' || c == '_' || c == '~' || c == '=' || c == '+' ||
    c == '[' || c == '\\')

/-- Does the node list start with a plain text leaf whose value begins
with the given pending characters?  Used to state that the scanner's
text accumulator (in particular an unmatched opener placed into it) is
always emitted as part of a plain text leaf. -/
def headTextPre (cur : List Char) (ns : List AstNode) : Bool :=
  match ns.head? with
  | some (AstNode.text v) => matchPre cur v.data
  | _ => false

/-- On an all-plain span the scanner only accumulates: the result is the
pending text plus the whole span, flushed as one text leaf. -/
theorem inlineGo_plain (fuel : Nat) :
    ∀ (cs cur : List Char), cs.all plainInlineChar = true → cs.length ≤ fuel →
      inlineGo fuel cs cur = flushText (cur ++ cs) := by
  induction fuel with
  | zero =>
    intro cs cur hp hl
    have hcs : cs = [] := List.length_eq_zero.mp (Nat.le_zero.mp hl)
    subst hcs
    simp [inlineGo]
  | succ f ih =>
    intro cs cur hp hl
    match cs with
    | [] => simp [inlineGo]
    | c :: rest =>
      simp only [List.all_cons, Bool.and_eq_true] at hp
      obtain ⟨hc, hrest⟩ := hp
      simp only [plainInlineChar, Bool.not_eq_true', Bool.or_eq_false_iff] at hc
      obtain ⟨⟨⟨⟨⟨⟨⟨h1, h2⟩, h3⟩, h4⟩, h5⟩, h6⟩, h7⟩, h8⟩ := hc
      have hlen : rest.length ≤ f := by
        simp only [List.length_cons] at hl; omega
      have hrec := ih rest (cur ++ [c]) hrest hlen
      simp only [inlineGo, h1, h2, h3, h4, h5, h6, h7, h8, Bool.false_and,
        Bool.false_or, if_false, Bool.or_self]
      have hfn : matchPre ['[', 'f', 'n', ':'] (c :: rest) = false := by
        have hsym : ('[' == c) = false :=
          beq_eq_false_iff_ne.mpr (Ne.symm (beq_eq_false_iff_ne.mp h7))
        simp [matchPre, hsym]
      simp only [hfn, if_false]
      rw [hrec, List.append_assoc]
      rfl

theorem matchPre_append (p cs : List Char) : matchPre p (p ++ cs) = true := by
  induction p with
  | nil => rfl
  | cons a t ih => simp [matchPre, ih]

theorem matchPre_refl (p : List Char) : matchPre p p = true := by
  have h := matchPre_append p []
  rwa [List.append_nil] at h

theorem matchPre_of_append :
    ∀ (a b v : List Char), matchPre (a ++ b) v = true → matchPre a v = true := by
  intro a
  induction a with
  | nil => intro b v _; rfl
  | cons x a2 ih =>
    intro b v h
    cases v with
    | nil => simp [matchPre] at h
    | cons y v2 =>
      simp only [List.cons_append, matchPre, Bool.and_eq_true] at h ⊢
      exact ⟨h.1, ih b v2 h.2⟩

/-- Shortening the required prefix preserves the head-text-leaf
property. -/
theorem headTextPre_shrink (a b : List Char) (ns : List AstNode)
    (h : headTextPre (a ++ b) ns = true) : headTextPre a ns = true := by
  unfold headTextPre at h ⊢
  cases hh : ns.head? with
  | none => rw [hh] at h; exact absurd h (by simp)
  | some n =>
    rw [hh] at h
    cases n
    case text v => exact matchPre_of_append a b v.data h
    all_goals exact h

/-- Fuel adequacy of the inline scanner: any two fuel amounts at least
the input length produce the same result — every loop iteration consumes
at least one character and every recursive parse works on a strictly
shorter span, so the computation completes within length steps. -/
theorem inlineGo_fuel :
    ∀ (f g : Nat) (cs cur : List Char), cs.length ≤ f → cs.length ≤ g →
      inlineGo f cs cur = inlineGo g cs cur := by
  intro f
  induction f with
  | zero =>
    intro g cs cur hf _
    have hcs : cs = [] := List.length_eq_zero.mp (Nat.le_zero.mp hf)
    subst hcs
    simp [inlineGo]
  | succ f ih =>
    intro g cs cur hf hg
    match cs with
    | [] => simp [inlineGo]
    | c :: rest =>
      obtain ⟨g2, rfl⟩ : ∃ g2, g = g2 + 1 := by
        refine ⟨g - 1, ?_⟩
        simp only [List.length_cons] at hg
        omega
      have hrf : rest.length ≤ f := by simp only [List.length_cons] at hf; omega
      have hrg : rest.length ≤ g2 := by simp only [List.length_cons] at hg; omega
      have key : ∀ (X Y : List Char), X.length ≤ rest.length →
          inlineGo f X Y = inlineGo g2 X Y :=
        fun X Y hX => ih g2 X Y (le_trans hX hrf) (le_trans hX hrg)
      simp only [inlineGo]
      split_ifs
      · cases hj : findCh '*' rest with
        | none => dsimp only; rw [key rest [c] (Nat.le_refl _)]
        | some j =>
          dsimp only
          rw [key (rest.take j) [] (by rw [List.length_take]; omega),
            key (rest.drop (j + 1)) [] (by rw [List.length_drop]; omega)]
      · cases hj : findCh '/' rest with
        | none => dsimp only; rw [key rest [c] (Nat.le_refl _)]
        | some j =>
          dsimp only
          rw [key (rest.drop (j + 1)) [] (by rw [List.length_drop]; omega)]
      · cases hj : findCh '_' rest with
        | none => dsimp only; rw [key rest [c] (Nat.le_refl _)]
        | some j =>
          dsimp only
          rw [key (rest.drop (j + 1)) [] (by rw [List.length_drop]; omega)]
      · cases hj : findCh c rest with
        | none => dsimp only; rw [key rest [c] (Nat.le_refl _)]
        | some j =>
          dsimp only
          rw [key (rest.drop (j + 1)) [] (by rw [List.length_drop]; omega)]
      · cases hj : findCh c rest with
        | none => dsimp only; rw [key rest [c] (Nat.le_refl _)]
        | some j =>
          dsimp only
          rw [key (rest.drop (j + 1)) [] (by rw [List.length_drop]; omega)]
      · cases hj : findCh '+' rest with
        | none => dsimp only; rw [key rest [c] (Nat.le_refl _)]
        | some j =>
          dsimp only
          rw [key (rest.drop (j + 1)) [] (by rw [List.length_drop]; omega)]
      · cases hj : findSub2 ']' ']' (rest.drop 1) with
        | none => dsimp only; rw [key rest [c] (Nat.le_refl _)]
        | some j =>
          dsimp only
          rw [key ((rest.drop 1).drop (j + 2)) []
            (by rw [List.length_drop, List.length_drop]; omega)]
      · cases hj : findCh ']' (rest.drop 3) with
        | none => dsimp only; rw [key rest [c] (Nat.le_refl _)]
        | some j =>
          dsimp only
          rw [key ((rest.drop 3).drop (j + 1)) []
            (by rw [List.length_drop, List.length_drop]; omega)]
      · rw [key (rest.drop 1) [] (by rw [List.length_drop]; omega)]
      · rw [key rest (cur ++ [c]) (Nat.le_refl _)]

/-- Whatever the remaining input, a nonempty pending accumulator is
always emitted as the beginning of a plain text leaf: the first node of
the scanner's output is a text leaf whose value starts with the
accumulator. -/
theorem inlineGo_pending :
    ∀ (fuel : Nat) (cs cur : List Char), cur ≠ [] →
      headTextPre cur (inlineGo fuel cs cur) = true := by
  intro fuel
  induction fuel with
  | zero =>
    intro cs cur hcur
    have hne : cur.isEmpty = false := by
      cases cur with
      | nil => exact absurd rfl hcur
      | cons a t => rfl
    cases cs with
    | nil => simp [inlineGo, headTextPre, flushText, hne, matchPre_refl]
    | cons c rest => simp [inlineGo, headTextPre, flushText, matchPre_append]
  | succ f ih =>
    intro cs cur hcur
    have hne : cur.isEmpty = false := by
      cases cur with
      | nil => exact absurd rfl hcur
      | cons a t => rfl
    cases cs with
    | nil => simp [inlineGo, headTextPre, flushText, hne, matchPre_refl]
    | cons c rest =>
      have hflush : ∀ L : List AstNode, headTextPre cur (flushText cur ++ L) = true := by
        intro L
        simp [headTextPre, flushText, hne, matchPre_refl]
      simp only [inlineGo]
      split_ifs
      · cases findCh '*' rest <;> exact hflush _
      · cases findCh '/' rest <;> exact hflush _
      · cases findCh '_' rest <;> exact hflush _
      · cases findCh c rest <;> exact hflush _
      · cases findCh c rest <;> exact hflush _
      · cases findCh '+' rest <;> exact hflush _
      · cases findSub2 ']' ']' (rest.drop 1) <;> exact hflush _
      · cases findCh ']' (rest.drop 3) <;> exact hflush _
      · exact hflush _
      · exact headTextPre_shrink cur [c] _ (ih rest (cur ++ [c]) (by simp))

/-- The level stored by parseHeading is at least 1 (a zero or missing
token level is replaced by 1, and the lexer only produces positive
levels anyway). -/
theorem parseHeading_level_pos (t : Token) (l : Nat) (tg : List String)
    (cs : List AstNode) (h : parseHeading t = .heading l tg cs) : 1 ≤ l := by
  unfold parseHeading at h
  cases hts : headingTagSplit t.value.data with
  | none =>
    simp only [hts] at h
    injection h with h1 _ _
    cases hlv : t.level with
    | none => simp only [hlv] at h1; omega
    | some lv =>
      simp only [hlv] at h1
      split at h1
      · omega
      · next hz =>
          have hnz : lv ≠ 0 := by simpa using hz
          omega
  | some pr =>
    obtain ⟨p, mid⟩ := pr
    simp only [hts] at h
    injection h with h1 _ _
    cases hlv : t.level with
    | none => simp only [hlv] at h1; omega
    | some lv =>
      simp only [hlv] at h1
      split at h1
      · omega
      · next hz =>
          have hnz : lv ≠ 0 := by simpa using hz
          omega

theorem parseBlock_notHeading (t : Token) (rest : List Token) (l : Nat)
    (tg : List String) (cs : List AstNode) :
    ¬ (parseBlock t rest).1 = AstNode.heading l tg cs := by
  simp only [parseBlock]
  split_ifs <;> simp

theorem parseDrawer_shape (t : Token) (rest : List Token) :
    (parseDrawer t rest).1 = none ∨
      ∃ nm cs2, (parseDrawer t rest).1 = some (AstNode.drawer nm cs2) := by
  simp only [parseDrawer]
  split_ifs <;> simp

theorem parseShortcode_shape (t : Token) :
    (∃ v, parseShortcode t = AstNode.text v) ∨
      (∃ c a, parseShortcode t = AstNode.shortcode c a) := by
  unfold parseShortcode
  cases shortcodeMatchAt t.value.data <;> simp

theorem parseParagraph_shape (toks : List Token) :
    (parseParagraph toks).1 = none ∨
      ∃ cs2, (parseParagraph toks).1 = some (AstNode.paragraph cs2) := by
  simp only [parseParagraph]
  split_ifs <;> simp

/-- Every heading node emitted by the token dispatch loop carries a
positive level. -/
theorem parseTokensGo_heading_level :
    ∀ (fuel : Nat) (toks : List Token) (n : AstNode), n ∈ parseTokensGo fuel toks →
      ∀ (l : Nat) (tg : List String) (cs : List AstNode),
        n = .heading l tg cs → 1 ≤ l := by
  intro fuel
  induction fuel with
  | zero => intro toks n hn; simp [parseTokensGo] at hn
  | succ f ih =>
    intro toks n hn l tg cs hne
    match toks with
    | [] => simp [parseTokensGo] at hn
    | t :: rest =>
      simp only [parseTokensGo] at hn
      cases ht : t.type <;> simp only [ht] at hn
      case HEADING =>
        rcases List.mem_cons.mp hn with h | h
        · exact parseHeading_level_pos t l tg cs (h ▸ hne)
        · exact ih rest n h l tg cs hne
      case CODE_BLOCK_START =>
        rcases List.mem_cons.mp hn with h | h
        · rw [h] at hne; simp [parseCodeBlock] at hne
        · exact ih _ n h l tg cs hne
      case BLOCK_START =>
        rcases List.mem_cons.mp hn with h | h
        · exact absurd (h ▸ hne) (parseBlock_notHeading t rest l tg cs)
        · exact ih _ n h l tg cs hne
      case TABLE_ROW =>
        rcases List.mem_cons.mp hn with h | h
        · rw [h] at hne; simp at hne
        · exact ih _ n h l tg cs hne
      case LIST_ITEM =>
        rcases List.mem_cons.mp hn with h | h
        · rw [h] at hne; simp at hne
        · exact ih _ n h l tg cs hne
      case DRAWER_START =>
        rcases parseDrawer_shape t rest with hd | ⟨nm, cs2, hd⟩
        · rw [hd] at hn
          exact ih _ n hn l tg cs hne
        · rw [hd] at hn
          rcases List.mem_cons.mp hn with h | h
          · rw [h] at hne; simp at hne
          · exact ih _ n h l tg cs hne
      case SHORTCODE =>
        rcases List.mem_cons.mp hn with h | h
        · rcases parseShortcode_shape t with ⟨v, hs⟩ | ⟨c2, a2, hs⟩
          · rw [h, hs] at hne; simp at hne
          · rw [h, hs] at hne; simp at hne
        · exact ih _ n h l tg cs hne
      case TEXT =>
        rcases parseParagraph_shape (t :: rest) with hp | ⟨cs2, hp⟩
        · rw [hp] at hn
          exact ih _ n hn l tg cs hne
        · rw [hp] at hn
          rcases List.mem_cons.mp hn with h | h
          · rw [h] at hne; simp at hne
          · exact ih _ n h l tg cs hne
      case BLANK => exact ih _ n hn l tg cs hne
      case CODE_BLOCK_END => exact ih _ n hn l tg cs hne
      case BLOCK_END => exact ih _ n hn l tg cs hne
      case DRAWER_END => exact ih _ n hn l tg cs hne
      case PARAGRAPH => exact ih _ n hn l tg cs hne

/-! ## Claim theorems -/

/-- Claim C1, counterexample: for the document of the claim, rendered
with default options, the renderer does produce a table of contents
block (the toc option defaults to enabled and the heading is collected),
so the claimed absence of a TOC block in the output is false. -/
theorem c1_counterexample :
    (renderToHtmlParts idHighlight
      (parse "#+TITLE: T\n* A\nSome *bold* and /italic/ text.") {}).toc =
    "<nav class=\"toc\"><h2>Table of Contents</h2><ul><li><a href=\"#a\">A</a></li></ul></nav>\n" := by
  decide

/-- Claim C1, amended: for the input document of the claim rendered with
default options, the rendered HTML of the heading and the single
paragraph (the body fragment) is exactly the claimed string
byte-for-byte and no footnote block is present, but a TOC block is
present in the assembled output, since the toc option defaults to
enabled and the document has a heading. -/
theorem c1_theorem :
    (renderToHtmlParts idHighlight
      (parse "#+TITLE: T\n* A\nSome *bold* and /italic/ text.") {}).body =
      "<h1 id=\"a\">A</h1>\n<p>Some <strong>bold</strong> and <em>italic</em> text.</p>\n" ∧
    (renderToHtmlParts idHighlight
      (parse "#+TITLE: T\n* A\nSome *bold* and /italic/ text.") {}).footnotes = "" ∧
    (renderToHtmlParts idHighlight
      (parse "#+TITLE: T\n* A\nSome *bold* and /italic/ text.") {}).toc =
      "<nav class=\"toc\"><h2>Table of Contents</h2><ul><li><a href=\"#a\">A</a></li></ul></nav>\n" := by
  refine ⟨by decide, by decide, by decide⟩

/-- Claim C2, counterexample: for the lines ["#+INVALID LINE",
"body text"], the malformed #+ line does not terminate extraction at its
own index: contentStartLine is 1, not 0, so the malformed line is
consumed by the extractor and dropped from the body (the parsed body
contains only the second line). -/
theorem c2_counterexample :
    (extractMetadata ["#+INVALID LINE", "body text"]).2 = 1 ∧
    (parse "#+INVALID LINE\nbody text").children =
      [.paragraph [.text "body text"]] := by
  exact ⟨by decide, rfl⟩

/-- Claim C2, amended: a line at the top of the document that begins
with "#+" but does not match the #+KEY: value pattern is silently
skipped by the extraction loop (consumed, with no state change, and thus
dropped from the body); extraction terminates only at the first non-blank
line that starts with neither # nor :. -/
theorem c2_theorem (l : String) (t : List Char) (rest : List String) (i : Nat)
    (md : OrgMetadata) (props : List (String × String))
    (h1 : jsTrim l.data = '#' :: '+' :: t)
    (h2 : metaLineMatch (jsTrim l.data) = none) :
    extractGo (l :: rest) i md false props = extractGo rest (i + 1) md false props := by
  rw [h1] at h2
  have e1 : ((('#' :: '+' :: t) : List Char) == ":PROPERTIES:".data) = false := rfl
  have e2 : ((('#' :: '+' :: t) : List Char) == ":END:".data) = false := rfl
  have e3 : matchPre ['#'] ('#' :: '+' :: t) = true := rfl
  simp only [extractGo, h1, e1, e2, e3, h2, Bool.false_and, if_false,
    Bool.not_true, List.isEmpty_cons, Bool.not_false, Bool.and_false,
    Bool.false_or, Bool.true_and]
  simp

/-- Claim C2, witness: the amended theorem applied to the concrete
malformed line "#+INVALID LINE" followed by "body text". -/
theorem c2_witness :
    extractGo ["#+INVALID LINE", "body text"] 0 {} false [] =
      extractGo ["body text"] 1 {} false [] :=
  c2_theorem "#+INVALID LINE" "INVALID LINE".data ["body text"] 0 {} []
    (by decide) (by decide)

/-- Claim C3, counterexample: the table input of the claim parses to a
table with two tableRow nodes, not exactly one — the header row (a, b)
is also emitted as a data row; only the separator row is skipped. -/
theorem c3_counterexample :
    (match parseTokens (tokenize "|a|b|\n|-|-|\n|1|2|") with
      | [AstNode.table rows] => rows.length
      | _ => 0) = 2 := by
  rfl

/-- Claim C3, amended: the table input yields a table node with exactly
two tableRow nodes, with cell texts (a, b) and (1, 2) in order; the
separator row produces no tableRow node. -/
theorem c3_theorem :
    parseTokens (tokenize "|a|b|\n|-|-|\n|1|2|") =
      [.table [.tableRow [.tableCell [.text "a"], .tableCell [.text "b"]],
               .tableRow [.tableCell [.text "1"], .tableCell [.text "2"]]]] := by
  rfl

/-- Claim C4: every heading node produced by the token-dispatch loop
(for any input token stream, hence any input document) renders with a
tag number min(level, 6) that lies in [1, 6]; the rendered element is
literally the hN element for that clamped number, so inputs with more
than six asterisks render as h6 and no heading renders outside the
range. -/
theorem c4_theorem (fuel : Nat) (toks : List Token) (n : AstNode) (l : Nat)
    (tg : List String) (cs : List AstNode) (ctx : RenderCtx)
    (hmem : n ∈ parseTokensGo fuel toks) (hn : n = .heading l tg cs) :
    1 ≤ min l 6 ∧ min l 6 ≤ 6 ∧
    (renderHeading n ctx).1 =
      "<h" ++ toString (min l 6) ++ " id=\"" ++
        escapeHtml (slugify (childValuesJoin cs)) ++ "\">" ++
        renderChildrenSync n ++ "</h" ++ toString (min l 6) ++ ">\n" := by
  have hl := parseTokensGo_heading_level fuel toks n hmem l tg cs hn
  refine ⟨by omega, by omega, ?_⟩
  subst hn
  rfl

/-- Claim C4, witness: the seven-asterisk heading line renders as h6
with the clamped level in range. -/
theorem c4_witness :
    1 ≤ min 7 6 ∧ min 7 6 ≤ 6 ∧
    (renderHeading (AstNode.heading 7 [] [.text "A"]) {}).1 =
      "<h" ++ toString (min 7 6) ++ " id=\"" ++
        escapeHtml (slugify (childValuesJoin [.text "A"])) ++ "\">" ++
        renderChildrenSync (AstNode.heading 7 [] [.text "A"]) ++
        "</h" ++ toString (min 7 6) ++ ">\n" :=
  c4_theorem 1 (tokenize "******* A") (AstNode.heading 7 [] [.text "A"]) 7 []
    [.text "A"] {}
    (by
      have he : parseTokensGo 1 (tokenize "******* A") =
          [AstNode.heading 7 [] [.text "A"]] := rfl
      rw [he]
      exact List.mem_singleton_self _)
    rfl

/-- Claim C5, counterexample: for the input "[[u][v][w]]" the inline
parser emits a single link node keeping only the first two ][-separated
segments; the character w of the input appears nowhere in the parse
result, so rendering the node list cannot reproduce it — visible input
content is lost. -/
theorem c5_counterexample :
    parseInlineMarkup "[[u][v][w]]" = [.link "u" [.text "v"]] ∧
    (renderChildrenSyncList (parseInlineMarkup "[[u][v][w]]")).data.contains 'w' = false := by
  exact ⟨rfl, by decide⟩

/-- Claim C5, amended: for input text containing none of the inline
trigger characters (the six emphasis markers, the opening bracket, the
backslash), the inline parse yields the whole input as one flushed text
leaf, the sync renderer reproduces it (HTML-escaped), and the visible
projection of the rendered output reproduces the text exactly; for
inputs with markup constructs, link URLs with a description, link
segments beyond the second, image alt text and footnote references are
not reproduced by the rendered children, so the universal
no-character-loss property fails. -/
theorem c5_theorem (s : String) (h : s.data.all plainInlineChar = true) :
    parseInlineMarkup s = flushText s.data ∧
    renderChildrenSyncList (parseInlineMarkup s) = escapeHtml s ∧
    inlineVisible (parseInlineMarkup s) = s := by
  have h0 : parseInlineMarkup s = flushText s.data := by
    have := inlineGo_plain s.data.length s.data [] h (Nat.le_refl _)
    simpa [parseInlineMarkup] using this
  refine ⟨h0, ?_, ?_⟩
  · rw [h0]
    match s, h with
    | ⟨[]⟩, _ => rfl
    | ⟨c :: cs⟩, _ =>
      show renderChildrenSyncList [.text (String.mk (c :: cs))] = _
      show escapeHtml (String.mk (c :: cs)) ++ "" = _
      cases hh : escapeHtml (String.mk (c :: cs)) with
      | mk d => show String.mk (d ++ []) = _; rw [List.append_nil]
  · rw [h0]
    match s, h with
    | ⟨[]⟩, _ => rfl
    | ⟨c :: cs⟩, _ =>
      show inlineVisible [.text (String.mk (c :: cs))] = _
      show String.mk (c :: cs) ++ "" = _
      show String.mk ((c :: cs) ++ []) = _
      rw [List.append_nil]

/-- Claim C5, witness: the amended round trip at the plain input
"hello world." (hypothesis discharged by evaluation). -/
theorem c5_witness :
    parseInlineMarkup "hello world." = flushText "hello world.".data ∧
    renderChildrenSyncList (parseInlineMarkup "hello world.") = escapeHtml "hello world." ∧
    inlineVisible (parseInlineMarkup "hello world.") = "hello world." :=
  c5_theorem "hello world." (by decide)

/-- Claim C6: for every input string, an inline opening delimiter with
no matching closing marker later in the string is not treated as
markup.  Stated universally over every scan configuration: with any
pending accumulated text (whatever preceded the opener) and any
remaining tail (which may contain further markup), a six-marker opener
whose closing scan fails either joins the accumulator directly (when
followed by a space, so its guard fails) or is flushed-then-carried as
the new pending text, and scanning continues one character later; the
same holds for the two bracket openers without their closers; and
whatever follows, a nonempty pending accumulator — in particular one
holding such an opener — is emitted as the beginning of a plain text
leaf.  The embedding is a total function, so no input raises an
error. -/
theorem c6_theorem :
    (∀ (fuel : Nat) (cur : List Char) (m : Char) (rest : List Char),
      (m = '*' ∨ m = '/' ∨ m = '_' ∨ m = '~' ∨ m = '=' ∨ m = '+') →
      findCh m rest = none →
      inlineGo (fuel + 1) (m :: rest) cur =
        (if rest.head? == some ' ' then inlineGo fuel rest (cur ++ [m])
         else flushText cur ++ inlineGo fuel rest [m])) ∧
    (∀ (fuel : Nat) (cur rest : List Char),
      findSub2 ']' ']' rest = none →
      inlineGo (fuel + 1) ('[' :: '[' :: rest) cur =
        flushText cur ++ inlineGo fuel ('[' :: rest) ['[']) ∧
    (∀ (fuel : Nat) (cur rest : List Char),
      findCh ']' rest = none →
      inlineGo (fuel + 1) ('[' :: 'f' :: 'n' :: ':' :: rest) cur =
        flushText cur ++ inlineGo fuel ('f' :: 'n' :: ':' :: rest) ['[']) ∧
    (∀ (fuel : Nat) (cs cur : List Char), cur ≠ [] →
      headTextPre cur (inlineGo fuel cs cur) = true) := by
  refine ⟨?_, ?_, ?_, inlineGo_pending⟩
  · intro fuel cur m rest hm hno
    rcases hm with rfl | rfl | rfl | rfl | rfl | rfl <;>
    · by_cases hsp : (rest.head? == some ' ') = true
      · simp [inlineGo, hsp, matchPre]
      · have hsp2 : (rest.head? == some ' ') = false := by simpa using hsp
        simp [inlineGo, hsp2, hno, matchPre]
  · intro fuel cur rest hno
    simp [inlineGo, hno, matchPre]
  · intro fuel cur rest hno
    simp [inlineGo, hno, matchPre]

/-- Claim C6, witness: the theorem applied in a mid-string
configuration — pending text x, openers *, [[ and [fn:, tail "abc"
containing no closer — plus the pending-text conclusion on the full
input "*abc" with accumulator x. -/
theorem c6_witness :
    inlineGo 4 ('*' :: "abc".data) ['x'] =
      (if "abc".data.head? == some ' ' then inlineGo 3 "abc".data (['x'] ++ ['*'])
       else flushText ['x'] ++ inlineGo 3 "abc".data ['*']) ∧
    inlineGo 6 ('[' :: '[' :: "abc".data) ['x'] =
      flushText ['x'] ++ inlineGo 5 ('[' :: "abc".data) ['['] ∧
    inlineGo 8 ('[' :: 'f' :: 'n' :: ':' :: "abc".data) ['x'] =
      flushText ['x'] ++ inlineGo 7 ('f' :: 'n' :: ':' :: "abc".data) ['['] ∧
    headTextPre ['x'] (inlineGo 5 "*abc".data ['x']) = true :=
  ⟨c6_theorem.1 3 ['x'] '*' "abc".data (Or.inl rfl) (by decide),
   c6_theorem.2.1 5 ['x'] "abc".data (by decide),
   c6_theorem.2.2.1 7 ['x'] "abc".data (by decide),
   c6_theorem.2.2.2 5 "*abc".data ['x'] (by decide)⟩

/-- Claim C9: the inline markup scanner completes within input-length
many steps — any fuel of at least the string length yields the result of
parseInlineMarkup, because each loop iteration advances by at least one
character and each recursive parse runs on a strictly shorter span; the
embedding is a total function of the input string. -/
theorem c9_theorem (s : String) (fuel : Nat) (h : s.length ≤ fuel) :
    inlineGo fuel s.data [] = parseInlineMarkup s :=
  inlineGo_fuel fuel s.data.length s.data [] h (Nat.le_refl _)

/-- Claim C9, witness: the scanner run with surplus fuel on "a*b*c"
agrees with parseInlineMarkup. -/
theorem c9_witness :
    inlineGo 100 "a*b*c".data [] = parseInlineMarkup "a*b*c" :=
  c9_theorem "a*b*c" 100 (by decide)

/-- Claim C7: the list builder collects exactly the longest prefix of
consecutive LIST_ITEM tokens whose indent equals the opening item's
indent (takeWhile), leaving every other token — in particular a
LIST_ITEM at any different indent — unconsumed (dropWhile); and at the
concrete boundary of one extra indent space, "- a" and " - b" become two
separate sibling lists rather than one. -/
theorem c7_theorem :
    (∀ (b : Nat) (toks : List Token),
      parseListGo b toks =
        ((toks.takeWhile (fun t => t.type == .LIST_ITEM && t.indent == b)).map
            (fun t => .listItem (parseInlineMarkup t.value)),
          toks.dropWhile (fun t => t.type == .LIST_ITEM && t.indent == b))) ∧
    parseTokens (tokenize "- a\n - b") =
      [.list false [.listItem [.text "a"]], .list false [.listItem [.text "b"]]] := by
  constructor
  · intro b toks
    induction toks with
    | nil => rfl
    | cons t rest ih =>
      by_cases hp : (t.type == TokenType.LIST_ITEM && t.indent == b) = true
      · simp only [parseListGo, hp, if_true, ih, List.takeWhile_cons, List.dropWhile_cons,
          List.map_cons]
      · simp only [parseListGo, Bool.not_eq_true] at hp ⊢
        simp only [hp, if_false, List.takeWhile_cons, List.dropWhile_cons]
        simp [hp]
  · rfl

/-- Claim C8: the metadata returned by renderToHtml is the metadata of
the input document AST, for every AST, every render options value and
every pair of external collaborators — rendering changes no metadata
field. -/
theorem c8_theorem (hl : String → String → String) (san : String → String)
    (ast : OrgAst) (options : RenderOptions) :
    (renderToHtml hl san ast options).metadata = ast.metadata := rfl

/-- Every expansion emitted by the renderer's escapeChar is free of
angle brackets and both quote characters. -/
theorem escapeChar_free (c : Char) :
    (escapeChar c).all (fun x => !(x == '<' || x == '>' || x == '"' || x == '\'')) = true := by
  unfold escapeChar
  split_ifs with h1 h2 h3 h4 h5
  · decide
  · decide
  · decide
  · decide
  · decide
  · simp only [Bool.not_eq_true] at h2 h3 h4 h5
    simp [h2, h3, h4, h5]

/-- Every expansion emitted by the TOC's local escape is free of angle
brackets (quotes are left alone there). -/
theorem tocEscapeChar_free (c : Char) :
    (tocEscapeChar c).all (fun x => !(x == '<' || x == '>')) = true := by
  unfold tocEscapeChar
  split_ifs with h1 h2 h3
  · decide
  · decide
  · decide
  · simp only [Bool.not_eq_true] at h2 h3
    simp [h2, h3]

theorem flatMap_all {α : Type} (f : α → List Char) (p : Char → Bool)
    (h : ∀ a, (f a).all p = true) : ∀ l : List α, (l.flatMap f).all p = true := by
  intro l
  induction l with
  | nil => rfl
  | cons a t ih => simp [List.all_append, ih, h a]

theorem mem_wsRunsTo (r : Char) :
    ∀ (cs : List Char) (b : Bool) (x : Char), x ∈ wsRunsToGo r b cs →
      x = r ∨ (x ∈ cs ∧ isSpaceCh x = false) := by
  intro cs
  induction cs with
  | nil => intro b x hx; simp [wsRunsToGo] at hx
  | cons c rest ih =>
    intro b x hx
    by_cases hsp : isSpaceCh c = true
    · by_cases hb : b = true
      · subst hb
        simp only [wsRunsToGo, hsp, if_true] at hx
        rcases ih true x hx with h | ⟨h1, h2⟩
        · exact Or.inl h
        · exact Or.inr ⟨List.mem_cons_of_mem c h1, h2⟩
      · have hb2 : b = false := by simpa using hb
        subst hb2
        simp only [wsRunsToGo, hsp, if_true] at hx
        rcases List.mem_cons.mp hx with h | h
        · exact Or.inl h
        · rcases ih true x h with h2 | ⟨h3, h4⟩
          · exact Or.inl h2
          · exact Or.inr ⟨List.mem_cons_of_mem c h3, h4⟩
    · have hsp2 : isSpaceCh c = false := by simpa using hsp
      simp only [wsRunsToGo, hsp2, Bool.false_eq_true, if_false] at hx
      rcases List.mem_cons.mp hx with h | h
      · exact Or.inr ⟨h ▸ List.mem_cons_self c rest, h ▸ hsp2⟩
      · rcases ih false x h with h2 | ⟨h3, h4⟩
        · exact Or.inl h2
        · exact Or.inr ⟨List.mem_cons_of_mem c h3, h4⟩

theorem mem_collapseRuns (d : Char) :
    ∀ (cs : List Char) (b : Bool) (x : Char), x ∈ collapseRunsGo d b cs →
      x = d ∨ x ∈ cs := by
  intro cs
  induction cs with
  | nil => intro b x hx; simp [collapseRunsGo] at hx
  | cons c rest ih =>
    intro b x hx
    by_cases hc : (c == d) = true
    · by_cases hb : b = true
      · subst hb
        simp only [collapseRunsGo, hc, if_true] at hx
        rcases ih true x hx with h | h
        · exact Or.inl h
        · exact Or.inr (List.mem_cons_of_mem c h)
      · have hb2 : b = false := by simpa using hb
        subst hb2
        simp only [collapseRunsGo, hc, if_true] at hx
        rcases List.mem_cons.mp hx with h | h
        · exact Or.inl h
        · rcases ih true x h with h2 | h2
          · exact Or.inl h2
          · exact Or.inr (List.mem_cons_of_mem c h2)
    · have hc2 : (c == d) = false := by simpa using hc
      simp only [collapseRunsGo, hc2, Bool.false_eq_true, if_false] at hx
      rcases List.mem_cons.mp hx with h | h
      · exact Or.inr (h ▸ List.mem_cons_self c rest)
      · rcases ih false x h with h2 | h2
        · exact Or.inl h2
        · exact Or.inr (List.mem_cons_of_mem c h2)

theorem mem_dropWhileSub (p : Char → Bool) :
    ∀ (cs : List Char) (x : Char), x ∈ cs.dropWhile p → x ∈ cs := by
  intro cs
  induction cs with
  | nil => intro x hx; simp [List.dropWhile] at hx
  | cons c rest ih =>
    intro x hx
    by_cases hc : p c = true
    · simp only [List.dropWhile, hc, if_true] at hx
      exact List.mem_cons_of_mem c (ih x hx)
    · have hc2 : p c = false := by simpa using hc
      simp only [List.dropWhile, hc2, Bool.false_eq_true, if_false] at hx
      exact hx

theorem mem_jsTrim (cs : List Char) (x : Char) (hx : x ∈ jsTrim cs) : x ∈ cs := by
  unfold jsTrim dropEnd at hx
  rw [List.mem_reverse] at hx
  have h1 := mem_dropWhileSub isSpaceCh _ x hx
  rw [List.mem_reverse] at h1
  exact mem_dropWhileSub isSpaceCh _ x h1

/-- Every character of a slug is a word character or a hyphen (so slugs
can never contribute angle brackets or quotes to attribute values). -/
theorem slugify_chars (s : String) :
    (slugify s).data.all (fun c => isWordChar c || c == '-') = true := by
  rw [List.all_eq_true]
  intro x hx
  have hx1 : x ∈ collapseRunsGo '-' false
      (wsRunsToGo '-' false ((s.data.map asciiLower).filter slugKeep)) :=
    mem_jsTrim _ x hx
  rcases mem_collapseRuns '-' _ false x hx1 with rfl | hx2
  · simp
  rcases mem_wsRunsTo '-' _ false x hx2 with rfl | ⟨hx3, hsp⟩
  · simp
  have hk : slugKeep x = true := (List.mem_filter.mp hx3).2
  simp only [slugKeep, Bool.or_eq_true] at hk
  rcases hk with (hw | hs) | hd
  · simp [hw]
  · rw [hs] at hsp; cases hsp
  · simp [hd]

/-- Claim C10, amended: text-leaf values and attribute data are escaped
at every insertion point of the body renderer with the five-character
escape (whose output can never contain a raw angle bracket or quote),
the heading id is drawn from slugify (word characters and hyphens only)
and then escaped, and this is independent of the sanitize option, which
is applied afterwards; however, in the TOC fragment the heading text is
escaped only for ampersand and angle brackets, so quote characters of a
text leaf can appear unescaped there — only the absence of raw angle
brackets holds for the TOC as well. -/
theorem c10_theorem :
    (∀ s : String, (escapeHtml s).data.all
      (fun x => !(x == '<' || x == '>' || x == '"' || x == '\'')) = true) ∧
    (∀ s : String, (tocEscapeHtml s).data.all
      (fun x => !(x == '<' || x == '>')) = true) ∧
    (∀ s : String, (slugify s).data.all (fun c => isWordChar c || c == '-') = true) ∧
    (∀ (hl : String → String → String) (v : String) (ctx : RenderCtx),
      renderNode hl (.text v) ctx = (escapeHtml v, ctx)) ∧
    (∀ (hl : String → String → String) (href : String) (cs : List AstNode)
        (ctx : RenderCtx),
      renderNode hl (.link href cs) ctx =
        ("<a href=\"" ++ escapeHtml href ++ "\">" ++
          renderChildrenSync (.link href cs) ++ "</a>", ctx)) ∧
    (∀ (hl : String → String → String) (src alt : String) (ctx : RenderCtx),
      renderNode hl (.image src alt) ctx =
        ("<img src=\"" ++ escapeHtml src ++ "\" alt=\"" ++ escapeHtml alt ++ "\">", ctx)) ∧
    (∀ (component : String) (attrs : List (String × String)),
      renderShortcode component attrs =
        "<div data-component=\"" ++ escapeHtml component ++ "\" " ++
          joinStrs " " (attrs.map (fun kv =>
            escapeHtml kv.1 ++ "=\"" ++ escapeHtml kv.2 ++ "\"")) ++ "></div>\n") ∧
    (∀ (lvl : Nat) (tg : List String) (cs : List AstNode) (ctx : RenderCtx),
      (renderHeading (.heading lvl tg cs) ctx).1 =
        "<h" ++ toString (min lvl 6) ++ " id=\"" ++
          escapeHtml (slugify (childValuesJoin cs)) ++ "\">" ++
          renderChildrenSync (.heading lvl tg cs) ++
          "</h" ++ toString (min lvl 6) ++ ">\n") := by
  refine ⟨?_, ?_, slugify_chars, fun _ _ _ => rfl, fun _ _ _ _ => rfl,
    fun _ _ _ _ => rfl, fun _ _ => rfl, fun _ _ _ _ => rfl⟩
  · intro s
    exact flatMap_all escapeChar _ escapeChar_free s.data
  · intro s
    exact flatMap_all tocEscapeChar _ tocEscapeChar_free s.data

/-- Claim C10, counterexample: for the document consisting of the single
heading line with text A"B, the raw (unescaped) text appears verbatim in
the generated TOC fragment — the TOC escapes only ampersand and angle
brackets, so the quote character of a text leaf is not escaped there —
while the body fragment contains only the escaped form. -/
theorem c10_counterexample :
    containsSub "A\"B".data
      (renderToHtmlParts idHighlight (parse "* A\"B") {}).toc.data = true ∧
    containsSub "A\"B".data
      (renderToHtmlParts idHighlight (parse "* A\"B") {}).body.data = false := by
  exact ⟨by decide, by decide⟩

end Org2Html
